import Mathlib

set_option autoImplicit false

/-!
Verification development for the moxie incremental call-topology runtime.

Part 1 embeds `dyn-cache/src/dep_node.rs`: the `InnerDepNode` record with its
`root`, `mark` and `sweep` operations, the weak `Dependent` handle, and a
store of live nodes standing for the `Arc` allocations owned by cache
entries.  Part 2 embeds `topo/src/lib.rs`: the `Scope` runtime with `call`,
`call_in_slot`, `root` and `CallId::current`, interpreted over traces of
scope-entering operations.  Part 3 embeds `dom/src/events.rs`.
-/

/-- Liveness verdict returned by `sweep` (dyn-cache `Liveness`). -/
inductive Liveness where
  | live
  | dead
deriving DecidableEq, Repr

/-- Weak handle to a `DepNode` (dep_node.rs `Dependent`).  The underlying
allocation is named by a `Nat` address; `none` is the null handle produced by
`Weak::default()`, which can never upgrade.  Equality is address equality,
matching the `PartialEq` impl on addresses. -/
abbrev Dependent := Option Nat

/-- Null `Dependent` (the `Default` impl wrapping `Weak::default()`). -/
def Dependent.defaultNull : Dependent := none

/-- Shared mutable record of a cache entry (dep_node.rs `InnerDepNode`). -/
structure InnerDepNode where
  has_root : Bool
  dependents : List Dependent
deriving DecidableEq, Repr

/-- Consecutive deduplication, as `Vec::dedup` used in `InnerDepNode::root`. -/
def dedupConsec : List Dependent → List Dependent
  | [] => []
  | [a] => [a]
  | a :: b :: rest =>
    if a = b then dedupConsec (b :: rest) else a :: dedupConsec (b :: rest)

/-- dep_node.rs `InnerDepNode::root`: records the incoming dependent edge and
sets the per-revision root flag. -/
def InnerDepNode.rootNode (n : InnerDepNode) (dependent : Dependent) : InnerDepNode :=
  { has_root := true, dependents := dedupConsec (n.dependents ++ [dependent]) }

/-- dep_node.rs `InnerDepNode::mark`: returns the root flag.  The source
carries a `TODO check dependents` comment and performs no traversal of the
`dependents` list. -/
def InnerDepNode.mark (n : InnerDepNode) : Bool :=
  n.has_root

/-- dep_node.rs `InnerDepNode::sweep`: replaces `has_root` with `false` and
reports `Live` exactly when the flag was set. -/
def InnerDepNode.sweep (n : InnerDepNode) : Liveness × InnerDepNode :=
  (if n.has_root then .live else .dead, { n with has_root := false })

/-- Store of live `DepNode` allocations, keyed by address: the `Arc`s owned by
the cache's entries.  An address absent from the store is a dropped node. -/
abbrev NodeStore := List (Nat × InnerDepNode)

/-- First node registered at address `a`, if `a` is still alive. -/
def findNode : NodeStore → Nat → Option InnerDepNode
  | [], _ => none
  | (b, n) :: rest, a => if b = a then some n else findNode rest a

/-- dep_node.rs `Dependent::upgrade`: `Weak::upgrade`, yielding the node when
its allocation is still owned and `none` otherwise (in particular for the
null handle). -/
def Dependent.upgrade (store : NodeStore) (d : Dependent) : Option InnerDepNode :=
  d.bind (findNode store)

/-- Dropping every owning cache entry for address `a` removes the allocation
from the store; `Dependent` handles held elsewhere do not keep it. -/
def dropOwner (store : NodeStore) (a : Nat) : NodeStore :=
  store.filter (fun e => e.1 != a)

/-- Modelled from the spec: the illicit context stack lookup used by
`Dependent::incoming` (`illicit::get::<Dependent>`), which is not under
`src/`.  The stack of published `Dependent` values is a list, nearest first;
`get` returns the nearest value or reports absence. -/
def illicitGetDependent (ctx : List Dependent) : Option Dependent :=
  ctx.head?

/-- dep_node.rs `Dependent::incoming`: the nearest published `Dependent`, or
the null default when executing a top-level query. -/
def Dependent.incoming (ctx : List Dependent) : Dependent :=
  match illicitGetDependent ctx with
  | some dep => dep
  | none => Dependent.defaultNull

/-- Modelled from the spec: the cache's `gc()` driver (not under `src/`),
which runs one mark pass over every entry's `DepNode` using the source's
`InnerDepNode::mark` (which mutates nothing) and then one sweep pass,
removing every entry whose sweep verdict is `Dead` and keeping the rest with
the flag cleared. -/
def gc (store : NodeStore) : NodeStore :=
  (store.map (fun e => (e.1, e.2, e.2.mark))).filterMap
    (fun e =>
      match e.2.1.sweep with
      | (.live, n') => some (e.1, n')
      | (.dead, _) => none)

/-- Claim C2: one `sweep` call has exactly two outcomes — `Live` when the
node was rooted this pass and `Dead` otherwise — and in both cases the node's
`has_root` flag is `false` afterwards; at the `gc` level exactly the entries
whose node was rooted survive, flag cleared, and the rest are removed. -/
theorem sweep_two_outcomes_and_clears_flag :
    (∀ n : InnerDepNode,
      n.sweep = (if n.has_root then Liveness.live else Liveness.dead,
                 { has_root := false, dependents := n.dependents })) ∧
    (∀ n : InnerDepNode, (n.sweep.2).has_root = false) ∧
    (∀ store : NodeStore,
      gc store = store.filterMap (fun e =>
        if e.2.has_root then some (e.1, { has_root := false, dependents := e.2.dependents })
        else none)) := by
  refine ⟨fun n => rfl, fun n => rfl, fun store => ?_⟩
  induction store with
  | nil => rfl
  | cons e rest ih =>
    obtain ⟨a, n⟩ := e
    by_cases h : n.has_root <;>
      simp [gc, InnerDepNode.sweep, InnerDepNode.mark, h] at ih ⊢ <;>
      exact ih

/-- Claim C1 failing input: node `0` is rooted and lists node `1` as a live
`Dependent` target, yet `gc` removes node `1` — `mark` ignores the
`dependents` list entirely, so no liveness is propagated and the only
survivors are the directly rooted entries. -/
theorem gc_drops_transitively_reachable_entry :
    InnerDepNode.mark { has_root := false, dependents := [] } = false ∧
    gc [(0, { has_root := true, dependents := [some 1] }),
        (1, { has_root := false, dependents := [] })] =
      [(0, { has_root := false, dependents := [some 1] })] ∧
    findNode (gc [(0, { has_root := true, dependents := [some 1] }),
                  (1, { has_root := false, dependents := [] })]) 1 = none := by
  refine ⟨rfl, rfl, rfl⟩

/-- Dropping every owner of address `a` leaves nothing for `a` in the store. -/
theorem findNode_dropOwner (store : NodeStore) (a : Nat) :
    findNode (dropOwner store a) a = none := by
  induction store with
  | nil => rfl
  | cons e rest ih =>
    obtain ⟨b, n⟩ := e
    by_cases h : b = a
    · subst h
      simpa [dropOwner, List.filter_cons] using ih
    · have hb : (b != a) = true := by simp [bne, h]
      simp only [dropOwner, List.filter_cons, hb] at ih ⊢
      simpa [findNode, h] using ih

/-- Claim C7: a `Dependent` is a weak handle that never extends its
`DepNode`'s lifetime — once every owning cache entry has dropped the node,
upgrading any handle to it yields `none` — and `mark` skips dependent edges
entirely: its result does not depend on the `dependents` list, so an edge to
a dropped node (and any dependency cycle) is harmless. -/
theorem dependent_weak_and_edges_skipped :
    (∀ (store : NodeStore) (a : Nat),
      Dependent.upgrade (dropOwner store a) (some a) = none) ∧
    (∀ (hr : Bool) (deps deps' : List Dependent),
      InnerDepNode.mark { has_root := hr, dependents := deps } =
        InnerDepNode.mark { has_root := hr, dependents := deps' }) := by
  exact ⟨fun store a => findNode_dropOwner store a, fun hr deps deps' => rfl⟩

/-- Claim C10: `Dependent::incoming` is total — outside any
dependency-tracking context it returns the null default handle, whose upgrade
is `none` in every store, and with published dependents it returns the
nearest one. -/
theorem incoming_total_with_null_default :
    Dependent.incoming [] = Dependent.defaultNull ∧
    (∀ (d : Dependent) (rest : List Dependent), Dependent.incoming (d :: rest) = d) ∧
    (∀ store : NodeStore, Dependent.upgrade store Dependent.defaultNull = none) := by
  exact ⟨rfl, fun d rest => rfl, fun store => rfl⟩

/-!
Part 2: the `topo` scope runtime (`topo/src/lib.rs`).

A `Callsite` is an opaque token for a syntactic call location; we name it by
a `Nat`.  Slots are either the default call-count slot (`CallCount(u32)` in
`call`) or an explicit slot value (`call_in_slot`), here a `String`.
-/

/-- Slot disambiguating repeated entries at one callsite: the default
call-count slot used by `call`, or an explicit slot as in `call_in_slot`. -/
inductive Slot where
  | count (n : Nat)
  | named (s : String)
deriving DecidableEq, Repr

/-- Modelled from the spec: `CallId` (topo's `id.rs`, not under `src/`) is a
fingerprint of `(parent CallId, callsite, slot)` derived with a stable hashing
discipline, with a distinguished root id; equal `CallId`s denote the same
logical scope, so the fingerprint is faithfully modelled as the path itself.
`CallId.child` is `id.rs`'s `CallId::child(callsite, slot)`. -/
inductive CallId where
  | root
  | child (parent : CallId) (callsite : Nat) (slot : Slot)
deriving DecidableEq, Repr

/-- Runtime state of the active call (lib.rs `Scope`): its `CallId`, its
originating callsite, and the per-child-callsite entry counts. -/
structure Scope where
  id : CallId
  callsite : Nat
  callsite_counts : List (Nat × Nat)
deriving DecidableEq, Repr

/-- lib.rs `Scope::increment_count`: bump the count of the first matching
callsite, or record the callsite with count 1. -/
def incrementCounts : List (Nat × Nat) → Nat → List (Nat × Nat)
  | [], cs => [(cs, 1)]
  | (site, c) :: rest, cs =>
    if site = cs then (site, c + 1) :: rest else (site, c) :: incrementCounts rest cs

/-- Modelled from the spec: `Callsite::current_count` (topo's `id.rs`, not
under `src/`) reads the enclosing scope's count at this callsite, starting at
0 before the first entry. -/
def countAt : List (Nat × Nat) → Nat → Nat
  | [], _ => 0
  | (site, c) :: rest, cs => if site = cs then c else countAt rest cs

/-- `Scope::increment_count` on the scope record. -/
def Scope.increment (s : Scope) (cs : Nat) : Scope :=
  { s with callsite_counts := incrementCounts s.callsite_counts cs }

/-- Count of prior entries at callsite `cs` during scope `s`. -/
def Scope.countOf (s : Scope) (cs : Nat) : Nat :=
  countAt s.callsite_counts cs

/-- lib.rs `Scope::default`: a freshly materialized root scope, used by
`Scope::with_current` when no scope is published.  Its id is `CallId::root()`
and its counts are empty; the stored callsite is the default location. -/
def Scope.defaultScope : Scope :=
  { id := CallId.root, callsite := 0, callsite_counts := [] }

/-- Fixed callsite of the `call(op)` invocation inside `root`'s body
(lib.rs line 260): every `root` descends through this one location. -/
def rootCallsite : Nat := 260

/-- Child scope built by `Scope::enter_child`: empty counts, the entering
callsite, and `self.id.child(callsite, slot)`. -/
def Scope.childScope (p : Scope) (cs : Nat) (slot : Slot) : Scope :=
  { id := p.id.child cs slot, callsite := cs, callsite_counts := [] }

/-- Trace of scope-runtime operations a client performs: observing
`CallId::current`, sequencing, and the three scope-entering operations. -/
inductive Op where
  | observe
  | skip
  | seq (a b : Op)
  | call (cs : Nat) (body : Op)
  | callInSlot (cs : Nat) (slot : String) (body : Op)
  | enterRoot (body : Op)
deriving Repr

/-- Interpreter for a trace, threading the published current scope (`none`
when no scope is visible, as outside any scope or under `illicit::hide`) and
collecting every `CallId` observed by `CallId::current`.

Each branch mirrors lib.rs: `observe` is `Scope::with_current(|s| s.id)`
with the default root scope materialized when nothing is published;
`call` reads `callsite.current_count()` for the slot, then `enter_child`
increments the parent's count and runs the body in the child scope (a
temporary default parent is discarded, so nothing is published after);
`callInSlot` is `enter_child` with the explicit slot; `enterRoot` is
`root(op)`: `illicit::hide::<Scope>()` (modelled from the spec: the hidden
frame is restored on exit, per the context-stack contract in the spec, since
the illicit crate is not under `src/`) followed by `call(op)` at
`rootCallsite`, so the body runs under the scope the default root scope
derives for that callsite. -/
def runOp : Option Scope → Op → Option Scope × List CallId
  | s, .observe => (s, [((s.getD Scope.defaultScope).id)])
  | s, .skip => (s, [])
  | s, .seq a b =>
    let r1 := runOp s a
    let r2 := runOp r1.1 b
    (r2.1, r1.2 ++ r2.2)
  | s, .call cs body =>
    let p := s.getD Scope.defaultScope
    let count := p.countOf cs
    let p' := p.increment cs
    let r := runOp (some (p.childScope cs (.count count))) body
    (s.map (fun _ => p'), r.2)
  | s, .callInSlot cs slot body =>
    let p := s.getD Scope.defaultScope
    let p' := p.increment cs
    let r := runOp (some (p.childScope cs (.named slot))) body
    (s.map (fun _ => p'), r.2)
  | s, .enterRoot body =>
    let d := Scope.defaultScope
    let r := runOp (some (d.childScope rootCallsite (.count (d.countOf rootCallsite)))) body
    (s, r.2)

/-- Claim C6: `CallId::current` returns the enclosing scope's `CallId`, and
the distinguished root id outside any scope, where `with_current`
materializes the default root scope whose id is `CallId::root()`. -/
theorem current_id_enclosing_or_root :
    (∀ s : Scope, (runOp (some s) .observe).2 = [s.id]) ∧
    (runOp none .observe).2 = [CallId.root] ∧
    Scope.defaultScope.id = CallId.root := by
  exact ⟨fun s => rfl, rfl, rfl⟩

/-- Client that descends through the given `(callsite, slot)` pairs with
`call_in_slot`, observing `CallId::current` at every visited point. -/
def nestTrace : List (Nat × String) → Op
  | [] => .observe
  | (cs, sl) :: rest => .seq .observe (.callInSlot cs sl (nestTrace rest))

/-- CallIds a descent through the given `(callsite, slot)` pairs is expected
to observe: a pure function of the starting id and the pairs alone. -/
def nestObs : CallId → List (Nat × String) → List CallId
  | idv, [] => [idv]
  | idv, (cs, sl) :: rest => idv :: nestObs (CallId.child idv cs (.named sl)) rest

/-- Observed ids along a slotted descent depend only on the starting scope's
id and on the `(callsite, slot)` pairs. -/
theorem runOp_nestTrace (path : List (Nat × String)) :
    ∀ s : Scope, (runOp (some s) (nestTrace path)).2 = nestObs s.id path := by
  induction path with
  | nil => intro s; rfl
  | cons head rest ih =>
    intro s
    obtain ⟨cs, sl⟩ := head
    simp [nestTrace, nestObs, runOp, Scope.childScope, ih]

/-- Claim C3: `CallId` derivation is deterministic — along any sequence of
`(callsite, slot)` descents the id observed by `CallId::current` at each
visited point is the pure function `nestObs` of the starting id and the
pairs, so two runs entering the same sequence from the same root observe
equal ids at every corresponding point, whatever the rest of the runtime
state. -/
theorem call_id_stability :
    (∀ (s : Scope) (path : List (Nat × String)),
      (runOp (some s) (nestTrace path)).2 = nestObs s.id path) ∧
    (∀ (idv : CallId) (cs1 cs2 : Nat) (counts1 counts2 : List (Nat × Nat))
        (path : List (Nat × String)),
      (runOp (some (Scope.mk idv cs1 counts1)) (nestTrace path)).2 =
        (runOp (some (Scope.mk idv cs2 counts2)) (nestTrace path)).2) := by
  refine ⟨fun s path => runOp_nestTrace path s, ?_⟩
  intro idv cs1 cs2 counts1 counts2 path
  rw [runOp_nestTrace path, runOp_nestTrace path]

/-- Incrementing a callsite's count raises exactly that count by one. -/
theorem countAt_incrementCounts (l : List (Nat × Nat)) (cs : Nat) :
    countAt (incrementCounts l cs) cs = countAt l cs + 1 := by
  induction l with
  | nil => simp [incrementCounts, countAt]
  | cons e rest ih =>
    obtain ⟨site, c⟩ := e
    by_cases h : site = cs <;> simp [incrementCounts, countAt, h, ih]

/-- Client that enters `call` (default slots) `n` times in a row at the same
callsite, observing `CallId::current` inside each entry. -/
def repeatCall (cs : Nat) : Nat → Op
  | 0 => .skip
  | n + 1 => .seq (.call cs .observe) (repeatCall cs n)

/-- Successive `call` entries at one callsite observe the children of the
parent id whose default slots count up from the parent's current count. -/
theorem runOp_repeatCall (cs : Nat) (n : Nat) :
    ∀ p : Scope, (runOp (some p) (repeatCall cs n)).2 =
      (List.range n).map (fun i => CallId.child p.id cs (.count (p.countOf cs + i))) := by
  induction n with
  | zero => intro p; rfl
  | succ n ih =>
    intro p
    have hid : (p.increment cs).id = p.id := rfl
    have hc : (p.increment cs).countOf cs = p.countOf cs + 1 :=
      countAt_incrementCounts p.callsite_counts cs
    have harith : ∀ i : Nat, p.countOf cs + 1 + i = p.countOf cs + (i + 1) := by omega
    simp [repeatCall, runOp, Scope.childScope, ih, hid, hc,
      List.range_succ_eq_map, List.map_map, Function.comp, harith]

/-- Claim C4: within one parent scope, `n` successive default-slot entries at
the same callsite produce the ids with slots `countOf cs`, `countOf cs + 1`,
… — monotonically increasing, and starting at 0 in a fresh scope whose
counts are empty — and these ids are pairwise distinct. -/
theorem successive_default_slots_distinct :
    (∀ (p : Scope) (cs n : Nat),
      (runOp (some p) (repeatCall cs n)).2 =
        (List.range n).map (fun i => CallId.child p.id cs (.count (p.countOf cs + i)))) ∧
    (∀ (p : Scope) (cs n : Nat), ((runOp (some p) (repeatCall cs n)).2).Nodup) ∧
    (∀ (idv : CallId) (c cs : Nat), (Scope.mk idv c []).countOf cs = 0) := by
  refine ⟨fun p cs n => runOp_repeatCall cs n p, fun p cs n => ?_, fun idv c cs => rfl⟩
  rw [runOp_repeatCall cs n p]
  refine List.Nodup.map ?_ (List.nodup_range n)
  intro i j hij
  simp only [CallId.child.injEq, Slot.count.injEq] at hij
  omega

/-- Claim C5: `root(op)` hides the enclosing scope for the duration of `op`,
so the ids observed inside are independent of the calling context —
`root(op) == root(op)` under any two enclosing contexts — the enclosing
scope is restored (unchanged) on exit, and the inner `call` sees no parent:
it derives its scope from `CallId::root()` with slot count 0. -/
theorem root_invariance :
    ∀ (ctx1 ctx2 : Option Scope) (body : Op),
      (runOp ctx1 (.enterRoot body)).2 = (runOp ctx2 (.enterRoot body)).2 ∧
      (runOp ctx1 (.enterRoot body)).1 = ctx1 ∧
      (runOp ctx1 (.enterRoot .observe)).2 =
        [CallId.child CallId.root rootCallsite (.count 0)] := by
  exact fun ctx1 ctx2 body => ⟨rfl, rfl, rfl⟩



/-!
Part 3: the DOM event wrappers (`dom/src/events.rs`).

A `Key σ` is a handle to keyed state of type `σ` (moxie's `Key<State>`); an
updater is the `FnMut(&State, Ev) -> Option<State>` callback supplied by the
client.  Firing the installed closure is modelled as a function from the
keyed state to the new state together with the emitted debug log and the
number of times the updater was invoked.
-/

/-- Handle to keyed state (moxie `Key<State>`), named by an id. -/
structure Key (σ : Type) where
  id : Nat
deriving DecidableEq, Repr

/-- Event listener closure wrapper (events.rs `Callback`): `fire` is what
running the wrapped closure does to the keyed state, with the log lines it
emits and the number of updater invocations it performs. -/
structure Callback (σ : Type) where
  fire : σ → σ × List String × Nat

/-- events.rs `Callback::new`: wraps the closure
`move || { debug!("callback called"); }`, which captures `key` and `updater`
but only emits the debug line. -/
def Callback.new {σ Ev : Type} (key : Key σ) (updater : σ → Ev → Option σ) : Callback σ :=
  { fire := fun st => (st, ["callback called"], 0) }

/-- Handle to a registered listener (events.rs `EventHandle`). -/
structure EventHandle (σ : Type) where
  callback : Callback σ
  name : String

/-- events.rs `EventHandle::new`: builds the callback, then registers it with
`target.add_event_listener_with_callback(name, cb).unwrap()`.  The target's
fallible registration is the oracle `tryAdd`, giving the outcome of each
successive attempt; the source makes exactly one attempt and unwraps it, so
an `Err` becomes a panic, modelled as the `Except.error` outcome. -/
def EventHandle.new {σ Ev : Type} (tryAdd : Nat → Except String Unit) (name : String)
    (key : Key σ) (updater : σ → Ev → Option σ) : Except String (EventHandle σ) :=
  let callback := Callback.new key updater
  match tryAdd 0 with
  | .ok _ => .ok { callback := callback, name := name }
  | .error e => .error e

/-- Claim C8: when listener registration fails, `EventHandle::new` surfaces
the failure as a fatal unrecoverable error (the `unwrap` panic) carrying the
registration error, and it performs no recovery or retry: its outcome
depends only on the first registration attempt. -/
theorem listener_registration_failure_fatal :
    (∀ (σ Ev : Type) (e name : String) (key : Key σ) (updater : σ → Ev → Option σ),
      EventHandle.new (fun _ => Except.error e) name key updater =
        (Except.error e : Except String (EventHandle σ))) ∧
    (∀ (σ Ev : Type) (tryAdd : Nat → Except String Unit) (name : String)
        (key : Key σ) (updater : σ → Ev → Option σ),
      EventHandle.new tryAdd name key updater =
        EventHandle.new (fun _ => tryAdd 0) name key updater) := by
  constructor
  · intro σ Ev e name key updater
    rfl
  · intro σ Ev tryAdd name key updater
    rfl

/-- Claim C9: the closure installed by `Callback::new` never invokes the
supplied updater and never touches the keyed state: firing it returns the
state unchanged with zero updater invocations and only the debug log line,
and the installed callback is the same whatever key and updater were
supplied. -/
theorem callback_never_invokes_updater :
    (∀ (σ Ev : Type) (key : Key σ) (updater : σ → Ev → Option σ) (st : σ),
      (Callback.new key updater).fire st = (st, ["callback called"], 0)) ∧
    (∀ (σ Ev : Type) (k1 k2 : Key σ) (u1 u2 : σ → Ev → Option σ),
      Callback.new k1 u1 = Callback.new k2 u2) := by
  exact ⟨fun σ Ev key updater st => rfl, fun σ Ev k1 k2 u1 u2 => rfl⟩
